import Mathlib

/-!
# L2 cache-controller header (`example/util.h`)

A shallow embedding of the header: the C struct declarations `l2perf_t` and
`l2ctl_t` with the layout algorithm of the C ABI (natural alignment), the
memory helpers `load` / `store`, the cycle-counter read `get_cycle`, and the
timing statement `TIMEIT`.
-/

namespace L2Ctl

/-! ## C object types and their layout -/

mutual
/-- The C object types that occur in the header. -/
inductive CType where
  | uint8 : CType
  | uint32 : CType
  | uint64 : CType
  | char : CType
  | array (elem : CType) (len : Nat) : CType
  | struct (members : Members) : CType
/-- The member declarations of a struct, in declaration order. -/
inductive Members where
  | nil : Members
  | cons (name : String) (type : CType) (rest : Members) : Members
end

/-- Round `off` up to the next multiple of `al`. -/
def alignUp (off al : Nat) : Nat := (off + al - 1) / al * al

mutual
/-- Alignment requirement of a type in bytes (natural alignment). -/
def alignof : CType → Nat
  | .uint8 => 1
  | .uint32 => 4
  | .uint64 => 8
  | .char => 1
  | .array elem _ => alignof elem
  | .struct ms => alignofMembers ms
/-- The strictest alignment among the members of a struct. -/
def alignofMembers : Members → Nat
  | .nil => 1
  | .cons _ t rest => max (alignof t) (alignofMembers rest)
end

mutual
/-- Size of a type in bytes: `sizeof`. -/
def sizeof : CType → Nat
  | .uint8 => 1
  | .uint32 => 4
  | .uint64 => 8
  | .char => 1
  | .array elem len => len * sizeof elem
  | .struct ms => alignUp (endOffset 0 ms) (alignofMembers ms)
/-- The offset just past the last member when the members are laid out from
offset `off`, each one at the next offset that satisfies its alignment. -/
def endOffset (off : Nat) : Members → Nat
  | .nil => off
  | .cons _ t rest => endOffset (alignUp off (alignof t) + sizeof t) rest
end

/-- Declared width in bits of a type: the `N` of `uintN_t`, eight bits per
byte otherwise. -/
def bitsof : CType → Nat
  | .uint8 => 8
  | .uint32 => 32
  | .uint64 => 64
  | t => 8 * sizeof t

/-- Build a member list from `(name, type)` pairs. -/
def Members.ofList : List (String × CType) → Members
  | [] => .nil
  | (n, t) :: rest => .cons n t (Members.ofList rest)

/-- One leaf of a laid-out struct: an integer member (a register) or a filler
array, with the byte offset the layout gives it. -/
structure Slot where
  offset : Nat
  name : String
  size : Nat
  align : Nat
  bits : Nat
  isRegister : Bool
deriving DecidableEq

/-- Name of member `n` inside the member called `path` (`prefetch.read`). -/
def qualify (path n : String) : String :=
  if path = "" then n else path ++ "." ++ n

/-- The slot of a leaf object of type `t` at offset `base`. -/
def leafSlot (base : Nat) (path : String) (t : CType) (reg : Bool) : Slot :=
  ⟨base, path, sizeof t, alignof t, bitsof t, reg⟩

mutual
/-- The leaves of an object of the given type placed at offset `base`.
Integer members are registers; arrays (in this header only the `char _pad*`
fillers) are kept as one non-register slot. -/
def slotsOf (base : Nat) (path : String) : CType → List Slot
  | .uint8 => [leafSlot base path .uint8 true]
  | .uint32 => [leafSlot base path .uint32 true]
  | .uint64 => [leafSlot base path .uint64 true]
  | .char => [leafSlot base path .char false]
  | .array elem len => [leafSlot base path (.array elem len) false]
  | .struct ms => slotsOfMembers base path 0 ms
/-- The leaves of the members of a struct placed at `base`, the next member
being laid out from relative offset `off`. -/
def slotsOfMembers (base : Nat) (path : String) (off : Nat) : Members → List Slot
  | .nil => []
  | .cons n t rest =>
      slotsOf (base + alignUp off (alignof t)) (qualify path n) t ++
        slotsOfMembers base path (alignUp off (alignof t) + sizeof t) rest
end

/-- Offsets obtained by packing slots back to back from `off`, with no
alignment gap: the running sum of the declared sizes. -/
def packedOffsets (off : Nat) : List Slot → List Nat
  | [] => []
  | s :: rest => off :: packedOffsets (off + s.size) rest

/-- A register of the block: offset, qualified field name, width in bits. -/
structure Reg where
  offset : Nat
  name : String
  bits : Nat
deriving DecidableEq

/-- The registers declared by a type, in declaration order. -/
def registers (t : CType) : List Reg :=
  ((slotsOf 0 "" t).filter (fun s => s.isRegister)).map
    (fun s => ⟨s.offset, s.name, s.bits⟩)

/-! ## The declarations of the header -/

/-- The base address of the block: `L2CTL_BASE`, defined as `0x2010000`. -/
def L2CTL_BASE : Nat := 0x2010000

/-- The struct `l2perf_t`: nine `uint64_t` counters, `trains` to `missAddr`. -/
def l2perf_t : CType :=
  .struct (Members.ofList
    [("trains", .uint64), ("trainHits", .uint64), ("preds", .uint64),
     ("predGrants", .uint64), ("cacheables", .uint64), ("enables", .uint64),
     ("predValids", .uint64), ("clocks", .uint64), ("missAddr", .uint64)])

/-- The struct `l2ctl_t`: four `uint8_t` topology bytes, `flush64`, `flush32`,
the anonymous struct `prefetch` and `perf`, separated by the `char _pad*`
arrays, in declaration order. -/
def l2ctl_t : CType :=
  .struct (Members.ofList
    [("banks", .uint8), ("ways", .uint8), ("lgSets", .uint8),
     ("lgBlockBytes", .uint8), ("_pad0", .array .char 508),
     ("flush64", .uint64), ("_pad1", .array .char 56),
     ("flush32", .uint32), ("_pad2", .array .char 444),
     ("prefetch", .struct (Members.ofList
        [("read", .uint64), ("write", .uint64), ("enable", .uint64)])),
     ("_pad3", .array .char 488),
     ("perf", l2perf_t)])

/-- The register layout table of the specification: offset, field, width. -/
def spec_register_layout : List Reg :=
  [⟨0x000, "banks", 8⟩, ⟨0x001, "ways", 8⟩, ⟨0x002, "lgSets", 8⟩,
   ⟨0x003, "lgBlockBytes", 8⟩, ⟨0x200, "flush64", 64⟩, ⟨0x240, "flush32", 32⟩,
   ⟨0x400, "prefetch.read", 64⟩, ⟨0x408, "prefetch.write", 64⟩,
   ⟨0x410, "prefetch.enable", 64⟩, ⟨0x600, "perf.trains", 64⟩,
   ⟨0x608, "perf.trainHits", 64⟩, ⟨0x610, "perf.preds", 64⟩,
   ⟨0x618, "perf.predGrants", 64⟩, ⟨0x620, "perf.cacheables", 64⟩,
   ⟨0x628, "perf.enables", 64⟩, ⟨0x630, "perf.predValids", 64⟩,
   ⟨0x638, "perf.clocks", 64⟩, ⟨0x640, "perf.missAddr", 64⟩]

/-! ## Memory helpers `load` and `store` -/

/-- Byte-addressed memory: the byte stored at each address. -/
abbrev Mem := Nat → Nat

/-- The value of `sizeof(long)` under the LP64 ABI of the RV64 target (the target is fixed
by `rdcycle` being read into one 64-bit register). -/
def sizeof_long : Nat := 8

/-- The addresses designated by the lvalue `*(volatile long *)ptr`. -/
def footprint (ptr : Nat) : List Nat := List.range' ptr sizeof_long

/-- The little-endian byte sequence of `v` in an object of `n` bytes. -/
def bytesLE : Nat → Nat → List Nat
  | 0, _ => []
  | n + 1, v => v % 256 :: bytesLE n (v / 256)

/-- The value of a little-endian byte sequence. -/
def valueLE : List Nat → Nat
  | [] => 0
  | b :: rest => b % 256 + 256 * valueLE rest

/-- Write the bytes `bs` to consecutive addresses starting at `ptr`. -/
def writeBytes (m : Mem) (ptr : Nat) : List Nat → Mem
  | [] => m
  | b :: rest => writeBytes (fun a => if a = ptr then b else m a) (ptr + 1) rest

/-- Read the `long` object at `ptr`. -/
def readLong (m : Mem) (ptr : Nat) : Nat := valueLE ((footprint ptr).map m)

/-- Function `load`: `DONT_TOUCH(*(volatile long *)ptr);` reads the `long` at `ptr`
and hands the value to an empty `asm volatile`, which consumes it. The result
is the value consumed and the memory afterwards. -/
def load (m : Mem) (ptr : Nat) : Nat × Mem := (readLong m ptr, m)

/-- Function `store`: `*(volatile long *)ptr = 0;` -/
def store (m : Mem) (ptr : Nat) : Mem := writeBytes m ptr (bytesLE sizeof_long 0)

/-- The bytes occupied by a slot of the block placed at `base`. -/
def Slot.covers (base : Nat) (s : Slot) (a : Nat) : Bool :=
  decide (base + s.offset ≤ a) && decide (a < base + s.offset + s.size)

/-! ## The cycle counter and `TIMEIT` -/

/-- Subtraction `a - b` of two `uint64_t` values (both below `2^64`): the
result wraps modulo `2^64`. -/
def u64_sub (a b : Nat) : Nat := (a + (2 ^ 64 - b)) % 2 ^ 64

/-- What a run can be observed to do. -/
inductive Event where
  | rdcycle (value : Nat)
  | printf (msg : String) (value : Nat)
  | effect (tag : Nat)
deriving DecidableEq

/-- The part of the machine `TIMEIT` interacts with: `cycle` counts the
cycles since reset (the 64-bit `cycle` CSR shows it modulo `2^64`), `trace`
records the observable actions so far. Time passes inside statements: the
world transformer of a body accounts for every cycle it takes. -/
structure World where
  cycle : Nat
  trace : List Event
deriving DecidableEq

/-- How a C statement completes. -/
inductive Outcome where
  | normal
  | brk
  | cont
  | ret
  | goto (label : String)
deriving DecidableEq

/-- A C statement: from a world it either does not complete (`none`) or
completes in some way, leaving a world. -/
abbrev Stmt := World → Option (Outcome × World)

/-- Function `get_cycle`: `asm volatile("rdcycle %0" : "=r"(cycle)); return cycle;` -/
def get_cycle (w : World) : Nat × World :=
  (w.cycle % 2 ^ 64, { w with trace := w.trace ++ [Event.rdcycle (w.cycle % 2 ^ 64)] })

/-- The call `printf("%s: %llu\n", msg, v)`: `%llu` prints a 64-bit unsigned
value. -/
def printf_llu (msg : String) (v : Nat) : Stmt :=
  fun w => some (Outcome.normal, { w with trace := w.trace ++ [Event.printf msg (v % 2 ^ 64)] })

/-- A declaration with initializer, `uint64_t x = init();`, followed by the
statements in its scope. -/
def declInit (init : World → Nat × World) (scope : Nat → Stmt) : Stmt :=
  fun w => scope (init w).1 (init w).2

/-- Sequencing `s1; s2`: `s2` runs only when `s1` completes normally. -/
def seq (s1 s2 : Stmt) : Stmt :=
  fun w =>
    match s1 w with
    | some (Outcome.normal, w1) => s2 w1
    | r => r

/-- The loop `do body while (cond);`. `break` leaves the loop, `continue`
goes on to the test of `cond`, `return` and `goto` leave the loop with their
outcome. `fuel` bounds the number of iterations. -/
def doWhile : Nat → Stmt → (World → Bool) → Stmt
  | 0, _, _ => fun _ => none
  | fuel + 1, body, cond => fun w =>
    match body w with
    | none => none
    | some (Outcome.normal, w1) =>
        if cond w1 then doWhile fuel body cond w1 else some (Outcome.normal, w1)
    | some (Outcome.cont, w1) =>
        if cond w1 then doWhile fuel body cond w1 else some (Outcome.normal, w1)
    | some (Outcome.brk, w1) => some (Outcome.normal, w1)
    | some (Outcome.ret, w1) => some (Outcome.ret, w1)
    | some (Outcome.goto l, w1) => some (Outcome.goto l, w1)

/-- The macro `TIMEIT(msg, body)`:
`do { uint64_t cycle0 = get_cycle(); body; uint64_t cycle1 = get_cycle();
printf("%s: %llu\n", msg, cycle1 - cycle0); } while (0)`.
The body is a statement that does not name the locals `cycle0`, `cycle1`. -/
def TIMEIT (fuel : Nat) (msg : String) (body : Stmt) : Stmt :=
  doWhile fuel
    (declInit get_cycle fun cycle0 =>
      seq body
        (declInit get_cycle fun cycle1 =>
          printf_llu msg (u64_sub cycle1 cycle0)))
    (fun _ => false)

/-- The statement `break;`. -/
def breakStmt : Stmt := fun w => some (Outcome.brk, w)

/-- A body that takes `n` cycles, does one observable thing and completes
normally. -/
def work (n tag : Nat) : Stmt :=
  fun w => some (Outcome.normal, ⟨w.cycle + n, w.trace ++ [Event.effect tag]⟩)

/-- The labeled measurements `(label, elapsedCycles)` emitted in a trace. -/
def reported : List Event → List (String × Nat)
  | [] => []
  | Event.printf msg v :: rest => (msg, v) :: reported rest
  | _ :: rest => reported rest

/-- How `do ... while (0)` completes when its block completes with `o`. -/
def exitOutcome : Outcome → Outcome
  | .normal => .normal
  | .brk => .normal
  | .cont => .normal
  | .ret => .ret
  | .goto l => .goto l

/-! ## Auxiliary definitions for the statements -/

/-- The three prefetch enables as the block declares them. -/
def prefetchEnables : List Reg :=
  [⟨0x400, "prefetch.read", 64⟩, ⟨0x408, "prefetch.write", 64⟩,
   ⟨0x410, "prefetch.enable", 64⟩]

/-- The bytes a width-exact access to register `r` touches (block-relative). -/
def Reg.touches (r : Reg) (a : Nat) : Bool :=
  decide (r.offset ≤ a) && decide (a < r.offset + r.bits / 8)

/-- Register `r` covers every byte of register `q`. -/
def Reg.coversReg (r q : Reg) : Bool :=
  decide (r.offset ≤ q.offset) && decide (q.offset + q.bits / 8 ≤ r.offset + r.bits / 8)

/-- The memory with byte 1 at address `a` and 0 elsewhere. -/
def probe (a : Nat) : Mem := fun x => if x = a then 1 else 0

/-! ## Layout of the register block -/

/-- The registers of `l2ctl_t`, computed. -/
theorem registers_l2ctl_t : registers l2ctl_t = spec_register_layout := by decide

/-- A byte touched by two registers makes their byte ranges overlap. -/
theorem touches_overlap (r q : Reg) (a : Nat) (hr : r.touches a = true)
    (hq : q.touches a = true) :
    r.offset < q.offset + q.bits / 8 ∧ q.offset < r.offset + r.bits / 8 := by
  simp only [Reg.touches, Bool.and_eq_true, decide_eq_true_eq] at hr hq
  omega

/-- Among the declared registers only a prefetch enable itself overlaps it. -/
theorem overlap_prefetch_eq :
    ∀ r ∈ registers l2ctl_t, ∀ q ∈ prefetchEnables,
      r.offset < q.offset + q.bits / 8 ∧ q.offset < r.offset + r.bits / 8 → r = q := by
  decide

/-- Among the declared registers only a prefetch enable itself covers it. -/
theorem covers_prefetch_eq :
    ∀ r ∈ registers l2ctl_t, ∀ q ∈ prefetchEnables, r.coversReg q = true → r = q := by
  decide

/-- C1: laying out the declaration of `l2ctl_t` under natural alignment gives
exactly the 18 registers of the layout table of the specification, each with
the table's offset and the table's width. -/
theorem l2ctl_registers_match_table :
    registers l2ctl_t = spec_register_layout ∧ (registers l2ctl_t).length = 18 :=
  ⟨registers_l2ctl_t, by decide⟩

/-- C2 as stated fails: the size of `l2ctl_t` is not 0x680 bytes. -/
theorem l2ctl_size_ne_0x680 : sizeof l2ctl_t ≠ 0x680 := by decide

/-- C2, amended: the size of `l2ctl_t`, which is the sum of the declared sizes
4 + 508 + 8 + 56 + 4 + 444 + 24 + 488 + 72 of its members, is 0x648 bytes; the
last register, `perf.missAddr` at 0x640, ends the block. -/
theorem l2ctl_size_eq_0x648 :
    sizeof l2ctl_t = 0x648 ∧
    sizeof l2ctl_t = 4 + 508 + 8 + 56 + 4 + 444 + 24 + 488 + 72 ∧
    sizeof l2ctl_t = ((slotsOf 0 "" l2ctl_t).map (fun s => s.size)).sum ∧
    sizeof l2perf_t = 9 * 8 ∧
    (registers l2ctl_t).getLast? = some ⟨0x640, "perf.missAddr", 64⟩ ∧
    0x640 + 64 / 8 = sizeof l2ctl_t := by
  refine ⟨?_, ?_, ?_, ?_, ?_, ?_⟩ <;> decide

/-- C7 as stated fails: no declared register of `l2ctl_t` covers the three
prefetch enables; none even covers two of them. -/
theorem prefetch_not_one_register :
    ¬ (∃ r ∈ registers l2ctl_t, ∀ q ∈ prefetchEnables, r.coversReg q = true) := by
  decide

/-- C7, amended: the block declares the three prefetch enables as three
separate 64-bit registers at 0x400, 0x408 and 0x410; a width-exact write to a
declared register touches the bytes of at most one of them, so every sequence
of width-exact register writes that sets all three has at least three
writes. -/
theorem prefetch_three_registers :
    (∀ q ∈ prefetchEnables, q ∈ registers l2ctl_t ∧ q.bits = 64) ∧
    prefetchEnables.Nodup ∧
    (∀ r ∈ registers l2ctl_t, ∀ q ∈ prefetchEnables,
      (∃ a, r.touches a = true ∧ q.touches a = true) → r = q) ∧
    (∀ ws : List Reg, (∀ r ∈ ws, r ∈ registers l2ctl_t) →
      (∀ q ∈ prefetchEnables, ∃ r ∈ ws, r.coversReg q = true) → 3 ≤ ws.length) := by
  refine ⟨by decide, by decide, ?_, ?_⟩
  · intro r hr q hq h
    obtain ⟨a, h1, h2⟩ := h
    exact overlap_prefetch_eq r hr q hq (touches_overlap r q a h1 h2)
  · intro ws hws hcov
    have hsub : prefetchEnables ⊆ ws := by
      intro q hq
      obtain ⟨r, hr, hc⟩ := hcov q hq
      have hrq : r = q := covers_prefetch_eq r (hws r hr) q hq hc
      exact hrq ▸ hr
    have hnd : prefetchEnables.Nodup := by decide
    have hlen := (List.subperm_of_subset hnd hsub).length_le
    simpa [prefetchEnables] using hlen

/-- Witness of C7: the two writes to `prefetch.read` and `prefetch.write` are
width-exact register writes, and they do not cover `prefetch.enable`. -/
theorem prefetch_three_registers_witness :
    (⟨0x410, "prefetch.enable", 64⟩ : Reg) ∈ registers l2ctl_t ∧
    ¬ (∀ q ∈ prefetchEnables,
        ∃ r ∈ [(⟨0x400, "prefetch.read", 64⟩ : Reg), ⟨0x408, "prefetch.write", 64⟩],
          r.coversReg q = true) ∧
    3 ≤ prefetchEnables.length :=
  ⟨(prefetch_three_registers.1 _ (by decide)).1, by decide,
    prefetch_three_registers.2.2.2 prefetchEnables (by decide) (by decide)⟩

/-- C8: no register of the block is unaligned. Every register of `l2ctl_t`
sits at an offset that is a multiple of its size, and at an absolute address
`L2CTL_BASE + offset` that is a multiple of its size; every slot, fillers
included, satisfies its alignment; the layout inserts no implicit padding:
the offset of every slot is the running sum of the declared sizes before it,
and the size of the block is the sum of all declared sizes. -/
theorem l2ctl_registers_aligned :
    (∀ s ∈ slotsOf 0 "" l2ctl_t, s.isRegister = true →
      s.offset % s.size = 0 ∧ (L2CTL_BASE + s.offset) % s.size = 0 ∧
      s.size = s.align ∧ s.bits = 8 * s.size) ∧
    (∀ s ∈ slotsOf 0 "" l2ctl_t,
      s.offset % s.align = 0 ∧ (L2CTL_BASE + s.offset) % s.align = 0) ∧
    (slotsOf 0 "" l2ctl_t).map (fun s => s.offset) = packedOffsets 0 (slotsOf 0 "" l2ctl_t) ∧
    sizeof l2ctl_t = ((slotsOf 0 "" l2ctl_t).map (fun s => s.size)).sum ∧
    L2CTL_BASE % alignof l2ctl_t = 0 := by
  refine ⟨?_, ?_, ?_, ?_, ?_⟩ <;> decide

/-- Witness of C8 at `flush32`: offset 0x240, four bytes, address 0x2010240. -/
theorem l2ctl_registers_aligned_witness :
    (⟨0x240, "flush32", 4, 4, 32, true⟩ : Slot) ∈ slotsOf 0 "" l2ctl_t ∧
    0x240 % 4 = 0 ∧ (L2CTL_BASE + 0x240) % 4 = 0 :=
  have h := l2ctl_registers_aligned.1 ⟨0x240, "flush32", 4, 4, 32, true⟩
    (by decide) rfl
  ⟨by decide, h.1, h.2.1⟩

/-! ## `load` and `store` over a memory -/

/-- The footprint of a `long` access is the eight addresses from `ptr`. -/
theorem mem_footprint (p a : Nat) : a ∈ footprint p ↔ p ≤ a ∧ a < p + 8 := by
  simp only [footprint, sizeof_long, List.mem_range'_1]

/-- Bytes outside the written range keep their value. -/
theorem writeBytes_outside (bs : List Nat) :
    ∀ (m : Mem) (p a : Nat), (a < p ∨ p + bs.length ≤ a) → writeBytes m p bs a = m a := by
  induction bs with
  | nil => intro m p a _; rfl
  | cons b rest ih =>
    intro m p a h
    simp only [writeBytes, List.length_cons] at h ⊢
    rw [ih _ _ _ (by omega)]
    have hne : a ≠ p := by omega
    simp [hne]

/-- Writing zero bytes leaves zero at every address of the written range. -/
theorem writeBytes_zero_inside (n : Nat) :
    ∀ (m : Mem) (p a : Nat), p ≤ a → a < p + n →
      writeBytes m p (List.replicate n 0) a = 0 := by
  induction n with
  | zero => intro m p a h1 h2; omega
  | succ k ih =>
    intro m p a h1 h2
    simp only [List.replicate_succ, writeBytes]
    by_cases hap : a = p
    · rw [writeBytes_outside _ _ _ _ (by omega)]
      simp [hap]
    · exact ih _ _ _ (by omega) (by omega)

/-- The representation of 0 is all zero bytes. -/
theorem bytesLE_zero (n : Nat) : bytesLE n 0 = List.replicate n 0 := by
  induction n with
  | zero => rfl
  | succ k ih => simp [bytesLE, ih, List.replicate_succ]

/-- Pointwise description of the memory after `store`. -/
theorem store_apply (m : Mem) (p a : Nat) :
    store m p a = if p ≤ a ∧ a < p + 8 then 0 else m a := by
  unfold store
  rw [bytesLE_zero]
  split
  · next h => exact writeBytes_zero_inside _ _ _ _ h.1 (by simpa [sizeof_long] using h.2)
  · next h =>
    apply writeBytes_outside
    simp only [List.length_replicate, sizeof_long]
    omega

/-- The `long` read at `ptr`, byte by byte. -/
theorem readLong_eq (m : Mem) (p : Nat) :
    readLong m p = valueLE [m p, m (p + 1), m (p + 2), m (p + 3), m (p + 4), m (p + 5),
      m (p + 6), m (p + 7)] := by
  simp [readLong, footprint, sizeof_long, List.range']

/-- C10: `store(p)` gives the memory that holds 0 in the `long` cell at `p`
(every byte of the cell is 0, and the cell reads back as 0) and agrees with
the old memory at every byte outside the cell; `store` is idempotent; `load`
leaves the memory unchanged at every address. -/
theorem store_load_frame (m : Mem) (p : Nat) :
    (∀ a, a ∈ footprint p → store m p a = 0) ∧
    readLong (store m p) p = 0 ∧
    (∀ a, a ∉ footprint p → store m p a = m a) ∧
    store (store m p) p = store m p ∧
    (load m p).2 = m ∧ (∀ a, (load m p).2 a = m a) := by
  refine ⟨?_, ?_, ?_, ?_, rfl, fun _ => rfl⟩
  · intro a ha
    rw [store_apply, if_pos ((mem_footprint p a).1 ha)]
  · rw [readLong_eq]
    simp [store_apply, valueLE]
  · intro a ha
    rw [store_apply, if_neg (fun h => ha ((mem_footprint p a).2 h))]
  · funext a
    simp only [store_apply]
    split <;> rfl

/-- Witness of C10: storing at address 16 into the memory that holds its own
address in every byte clears bytes 16..23 and keeps bytes 15 and 24. -/
theorem store_load_frame_witness :
    store (fun a => a) 16 16 = 0 ∧ store (fun a => a) 16 23 = 0 ∧
    store (fun a => a) 16 15 = 15 ∧ store (fun a => a) 16 24 = 24 :=
  have h := store_load_frame (fun a => a) 16
  ⟨h.1 16 (by decide), h.1 23 (by decide), h.2.2.1 15 (by decide), h.2.2.1 24 (by decide)⟩

/-- C9 as stated fails: a `store` to the address of `flush32` (four bytes at
0x240) is an eight-byte access; it writes the byte at 0x244, which lies
outside the register. The same holds at `banks` (one byte at 0x000). -/
theorem store_flush32_not_width_exact :
    (⟨0x240, "flush32", 4, 4, 32, true⟩ : Slot) ∈ slotsOf 0 "" l2ctl_t ∧
    (footprint (L2CTL_BASE + 0x240)).length = 8 ∧
    (L2CTL_BASE + 0x244) ∈ footprint (L2CTL_BASE + 0x240) ∧
    Slot.covers L2CTL_BASE ⟨0x240, "flush32", 4, 4, 32, true⟩ (L2CTL_BASE + 0x244) = false ∧
    store (fun _ => 255) (L2CTL_BASE + 0x240) (L2CTL_BASE + 0x244) = 0 ∧
    ¬ (∀ s ∈ slotsOf 0 "" l2ctl_t, s.isRegister = true →
        (footprint (L2CTL_BASE + s.offset)).length = s.size ∧
        ∀ a ∈ footprint (L2CTL_BASE + s.offset), s.covers L2CTL_BASE a = true) := by
  refine ⟨by decide, by decide, by decide, by decide, by decide, by decide⟩

/-- C9, amended: an access through `load(ptr)` or `store(ptr)` always touches
exactly `sizeof(long)` = 8 bytes starting at `ptr`: `store` writes exactly
those eight bytes and `load` reads exactly those eight. At the address of a
register of `l2ctl_t` the access is therefore width-exact, and stays inside
the register, exactly when the register is 64 bits wide (`flush64`,
`prefetch.*`, `perf.*`). -/
theorem load_store_touch_eight_bytes :
    (∀ p, footprint p = [p, p + 1, p + 2, p + 3, p + 4, p + 5, p + 6, p + 7]) ∧
    (∀ p a, store (fun _ => 255) p a ≠ 255 ↔ a ∈ footprint p) ∧
    (∀ (m : Mem) p a, store m p a ≠ m a → a ∈ footprint p) ∧
    (∀ p a, (load (probe a) p).1 ≠ 0 ↔ a ∈ footprint p) ∧
    (∀ (m m' : Mem) p, (∀ a ∈ footprint p, m a = m' a) → (load m p).1 = (load m' p).1) ∧
    (∀ s ∈ slotsOf 0 "" l2ctl_t, s.isRegister = true →
      (footprint (L2CTL_BASE + s.offset)).length = 8 ∧
      ((footprint (L2CTL_BASE + s.offset)).length = s.size ↔ s.bits = 64) ∧
      ((∀ a ∈ footprint (L2CTL_BASE + s.offset), s.covers L2CTL_BASE a = true) ↔
        s.bits = 64)) := by
  refine ⟨fun p => by simp [footprint, sizeof_long, List.range'], ?_, ?_, ?_, ?_, by decide⟩
  · intro p a
    rw [store_apply, mem_footprint]
    by_cases h : p ≤ a ∧ a < p + 8 <;> simp [h]
  · intro m p a h
    rw [store_apply] at h
    by_cases hc : p ≤ a ∧ a < p + 8
    · exact (mem_footprint p a).2 hc
    · rw [if_neg hc] at h
      exact absurd rfl h
  · intro p a
    rw [mem_footprint]
    simp only [load, readLong_eq, valueLE, probe]
    constructor
    · intro h
      by_contra hc
      apply h
      have h0 : ¬ p = a := by omega
      have h1 : ¬ p + 1 = a := by omega
      have h2 : ¬ p + 2 = a := by omega
      have h3 : ¬ p + 3 = a := by omega
      have h4 : ¬ p + 4 = a := by omega
      have h5 : ¬ p + 5 = a := by omega
      have h6 : ¬ p + 6 = a := by omega
      have h7 : ¬ p + 7 = a := by omega
      simp [h0, h1, h2, h3, h4, h5, h6, h7]
    · intro h
      split_ifs <;> omega
  · intro m m' p h
    simp only [load, readLong_eq]
    have e : ∀ k, k < 8 → m (p + k) = m' (p + k) :=
      fun k hk => h _ ((mem_footprint p (p + k)).2 (by omega))
    have e0 := e 0 (by omega)
    rw [Nat.add_zero] at e0
    rw [e0, e 1 (by omega), e 2 (by omega), e 3 (by omega), e 4 (by omega),
      e 5 (by omega), e 6 (by omega), e 7 (by omega)]

/-- Witness of C9: at `flush64` (0x200, 64 bits) the eight-byte access is
width-exact; at `banks` (0x000, 8 bits) it is not. -/
theorem load_store_touch_eight_bytes_witness :
    ((footprint (L2CTL_BASE + 0x200)).length = 8 ∧
      ∀ a ∈ footprint (L2CTL_BASE + 0x200),
        Slot.covers L2CTL_BASE ⟨0x200, "flush64", 8, 8, 64, true⟩ a = true) ∧
    (footprint (L2CTL_BASE + 0)).length = 8 ∧
    ¬ (footprint (L2CTL_BASE + 0)).length = 1 :=
  have h64 := load_store_touch_eight_bytes.2.2.2.2.2 ⟨0x200, "flush64", 8, 8, 64, true⟩
    (by decide) rfl
  have h8 := load_store_touch_eight_bytes.2.2.2.2.2 ⟨0, "banks", 1, 1, 8, true⟩
    (by decide) rfl
  ⟨⟨h64.1, h64.2.2.2 rfl⟩, h8.1, fun h => absurd (h8.2.1.1 h) (by decide)⟩

/-! ## `TIMEIT` -/

/-- The difference of two `uint64_t` values is a `uint64_t` value. -/
theorem u64_sub_lt (a b : Nat) : u64_sub a b < 2 ^ 64 :=
  Nat.mod_lt _ (by norm_num)

/-- On 64-bit values `u64_sub` is subtraction of integers modulo `2^64`. -/
theorem u64_sub_int (a b : Nat) (hb : b < 2 ^ 64) :
    (u64_sub a b : Int) = ((a : Int) - (b : Int)) % 2 ^ 64 := by
  unfold u64_sub
  norm_num at hb ⊢
  omega

/-- After `n` more cycles the difference of the readings is `n` modulo `2^64`. -/
theorem u64_sub_add (s n : Nat) (hs : s < 2 ^ 64) :
    u64_sub ((s + n) % 2 ^ 64) s = n % 2 ^ 64 := by
  unfold u64_sub
  norm_num at hs ⊢
  omega

/-- A reading of the cycle counter is a 64-bit value. -/
theorem get_cycle_lt (w : World) : (get_cycle w).1 < 2 ^ 64 :=
  Nat.mod_lt _ (by norm_num)

/-- The body `work n tag` takes `n` cycles and records its effect once. -/
theorem work_run (n tag : Nat) (w : World) :
    work n tag (get_cycle w).2 =
      some (Outcome.normal,
        ⟨w.cycle + n, w.trace ++ [Event.rdcycle (get_cycle w).1, Event.effect tag]⟩) := by
  simp [work, get_cycle]

/-- Running `TIMEIT` on a body that completes normally. -/
theorem TIMEIT_normal (fuel : Nat) (msg : String) (body : Stmt) (w w2 : World)
    (h : body (get_cycle w).2 = some (Outcome.normal, w2)) :
    TIMEIT (fuel + 1) msg body w =
      some (Outcome.normal, ⟨w2.cycle, w2.trace ++
        [Event.rdcycle (w2.cycle % 2 ^ 64),
         Event.printf msg (u64_sub (w2.cycle % 2 ^ 64) (w.cycle % 2 ^ 64))]⟩) := by
  have hd : u64_sub (w2.cycle % 2 ^ 64) (w.cycle % 2 ^ 64) % 2 ^ 64 =
      u64_sub (w2.cycle % 2 ^ 64) (w.cycle % 2 ^ 64) := Nat.mod_eq_of_lt (u64_sub_lt _ _)
  simp only [get_cycle, Nat.reducePow] at h hd
  simp only [TIMEIT, doWhile, declInit, seq, printf_llu, get_cycle, Nat.reducePow, h, hd]
  simp

/-- Running `TIMEIT` on a body that leaves early. -/
theorem TIMEIT_early (fuel : Nat) (msg : String) (body : Stmt) (w w2 : World) (o : Outcome)
    (h : body (get_cycle w).2 = some (o, w2)) (ho : o ≠ Outcome.normal) :
    TIMEIT (fuel + 1) msg body w = some (exitOutcome o, w2) := by
  simp only [get_cycle, Nat.reducePow] at h
  cases o with
  | normal => exact absurd rfl ho
  | brk => simp [TIMEIT, doWhile, declInit, seq, get_cycle, h, exitOutcome]
  | cont => simp [TIMEIT, doWhile, declInit, seq, get_cycle, h, exitOutcome]
  | ret => simp [TIMEIT, doWhile, declInit, seq, get_cycle, h, exitOutcome]
  | goto l => simp [TIMEIT, doWhile, declInit, seq, get_cycle, h, exitOutcome]

/-- The measurements of a trace followed by one more `printf`. -/
theorem reported_append_printf (tr : List Event) (c : Nat) (msg : String) (v : Nat) :
    reported (tr ++ [Event.rdcycle c, Event.printf msg v]) = reported tr ++ [(msg, v)] := by
  induction tr with
  | nil => rfl
  | cons e rest ih => cases e <;> simp [reported, ih]

/-- C3: for every pair of readings `c0` (taken before the body) and `c1`
(taken after it), the value `TIMEIT` reports is `(c1 - c0) mod 2^64`: it lies
in `[0, 2^64)`, it is 0 when the readings are equal, and it is the modular
difference also when `c0 > c1` (`c0 = 2^64 - 5`, `c1 = 10` gives 15). -/
theorem timeit_reports_modular_difference (fuel : Nat) (msg : String) (body : Stmt)
    (w w2 : World) (c0 c1 : Nat)
    (h0 : (get_cycle w).1 = c0)
    (hb : body (get_cycle w).2 = some (Outcome.normal, w2))
    (h1 : (get_cycle w2).1 = c1) :
    ∃ d : Nat,
      TIMEIT (fuel + 1) msg body w =
        some (Outcome.normal,
          ⟨w2.cycle, w2.trace ++ [Event.rdcycle c1, Event.printf msg d]⟩) ∧
      d = u64_sub c1 c0 ∧
      (d : Int) = ((c1 : Int) - (c0 : Int)) % 2 ^ 64 ∧
      0 ≤ d ∧ d < 2 ^ 64 ∧
      (c0 = c1 → d = 0) ∧
      (c0 = 2 ^ 64 - 5 → c1 = 10 → d = 15) := by
  have hc0 : c0 < 2 ^ 64 := h0 ▸ get_cycle_lt w
  have hc1 : c1 < 2 ^ 64 := h1 ▸ get_cycle_lt w2
  refine ⟨u64_sub c1 c0, ?_, rfl, u64_sub_int c1 c0 hc0, Nat.zero_le _, u64_sub_lt _ _, ?_, ?_⟩
  · rw [TIMEIT_normal fuel msg body w w2 hb, ← h0, ← h1]
    rfl
  · intro h
    subst h
    unfold u64_sub
    norm_num at hc0 ⊢
    omega
  · intro ha hc
    subst ha hc
    decide

/-- Witness of C3: the counter reads `2^64 - 5` before a body of 15 cycles
and 10 after it; the reported value is 15. -/
theorem timeit_reports_modular_difference_witness :
    ∃ d : Nat,
      TIMEIT 1 "t" (work 15 0) ⟨2 ^ 64 - 5, []⟩ =
        some (Outcome.normal,
          ⟨2 ^ 64 - 5 + 15, [Event.rdcycle (2 ^ 64 - 5), Event.effect 0] ++
            [Event.rdcycle 10, Event.printf "t" d]⟩) ∧
      d = 15 := by
  obtain ⟨d, h, _, _, _, _, _, h15⟩ :=
    timeit_reports_modular_difference 0 "t" (work 15 0) ⟨2 ^ 64 - 5, []⟩
      ⟨2 ^ 64 - 5 + 15, [Event.rdcycle (2 ^ 64 - 5), Event.effect 0]⟩ (2 ^ 64 - 5) 10
      (by decide) (by decide) (by decide)
  exact ⟨d, h, h15 rfl rfl⟩

/-- C4: modular subtraction gives the elapsed count across an overflow. With
a 64-bit start reading `s` and `n` cycles elapsed, the end reading is
`(s + n) mod 2^64` and the difference `TIMEIT` computes is `n mod 2^64`: it is
exactly `n` when `n < 2^64` (the counter wrapped at most once), and it equals
`n` only then. -/
theorem timeit_elapsed_across_overflow (s n : Nat) (hs : s < 2 ^ 64) :
    u64_sub ((s + n) % 2 ^ 64) s = n % 2 ^ 64 ∧
    (n < 2 ^ 64 → u64_sub ((s + n) % 2 ^ 64) s = n) ∧
    (u64_sub ((s + n) % 2 ^ 64) s = n ↔ n < 2 ^ 64) ∧
    (∀ (fuel : Nat) (msg : String) (tag : Nat) (w : World), (get_cycle w).1 = s →
      TIMEIT (fuel + 1) msg (work n tag) w =
        some (Outcome.normal,
          ⟨w.cycle + n, w.trace ++ [Event.rdcycle s, Event.effect tag,
            Event.rdcycle ((s + n) % 2 ^ 64), Event.printf msg (n % 2 ^ 64)]⟩)) := by
  have key := u64_sub_add s n hs
  refine ⟨key, ?_, ?_, ?_⟩
  · intro hn
    rw [key, Nat.mod_eq_of_lt hn]
  · rw [key]
    constructor
    · intro h
      rw [← h]
      exact Nat.mod_lt _ (by norm_num)
    · intro hn
      exact Nat.mod_eq_of_lt hn
  · intro fuel msg tag w hw
    rw [TIMEIT_normal fuel msg (work n tag) w _ (work_run n tag w)]
    have e : (w.cycle + n) % 2 ^ 64 = (s + n) % 2 ^ 64 := by
      rw [← hw]
      simp only [get_cycle]
      omega
    have hw' : w.cycle % 2 ^ 64 = s := hw
    simp only [e, hw', key, hw]
    simp

/-- Witness of C4: start reading `2^64 - 5`, 15 cycles elapsed. -/
theorem timeit_elapsed_across_overflow_witness :
    u64_sub ((2 ^ 64 - 5 + 15) % 2 ^ 64) (2 ^ 64 - 5) = 15 :=
  (timeit_elapsed_across_overflow (2 ^ 64 - 5) 15 (by decide)).2.1 (by decide)

/-- C5: for every label and every body that runs to completion, `TIMEIT`
reads the cycle counter (`cycle0`), then runs the body exactly once from the
world that reading leaves, then reads the counter again (`cycle1`), then
emits the one labeled measurement `(msg, cycle1 - cycle0)` and completes.
For a body that records its effect, the trace gained is read, effect, read,
report, the effect occurring once. -/
theorem timeit_brackets_body_once (fuel : Nat) (msg : String) (body : Stmt) (w w2 : World)
    (hb : body (get_cycle w).2 = some (Outcome.normal, w2)) :
    (get_cycle w).2 = ⟨w.cycle, w.trace ++ [Event.rdcycle (get_cycle w).1]⟩ ∧
    TIMEIT (fuel + 1) msg body w =
      some (Outcome.normal,
        ⟨w2.cycle, w2.trace ++ [Event.rdcycle (get_cycle w2).1,
          Event.printf msg (u64_sub (get_cycle w2).1 (get_cycle w).1)]⟩) ∧
    reported (w2.trace ++ [Event.rdcycle (get_cycle w2).1,
        Event.printf msg (u64_sub (get_cycle w2).1 (get_cycle w).1)]) =
      reported w2.trace ++ [(msg, u64_sub (get_cycle w2).1 (get_cycle w).1)] ∧
    (∀ n tag : Nat, TIMEIT (fuel + 1) msg (work n tag) w =
      some (Outcome.normal,
        ⟨w.cycle + n, w.trace ++ [Event.rdcycle (get_cycle w).1, Event.effect tag,
          Event.rdcycle ((w.cycle + n) % 2 ^ 64),
          Event.printf msg (u64_sub ((w.cycle + n) % 2 ^ 64) (get_cycle w).1)]⟩)) := by
  refine ⟨rfl, TIMEIT_normal fuel msg body w w2 hb, reported_append_printf _ _ _ _, ?_⟩
  intro n tag
  rw [TIMEIT_normal fuel msg (work n tag) w _ (work_run n tag w)]
  simp [get_cycle]

/-- Witness of C5: a body of 7 cycles that records effect 1, started with the
counter at 100, gives the trace read 100, effect 1, read 107, report 7. -/
theorem timeit_brackets_body_once_witness :
    TIMEIT 1 "loop" (work 7 1) ⟨100, []⟩ =
      some (Outcome.normal,
        ⟨107, [Event.rdcycle 100, Event.effect 1] ++ [Event.rdcycle 107,
          Event.printf "loop" (u64_sub 107 100)]⟩) ∧
    u64_sub 107 100 = 7 :=
  ⟨(timeit_brackets_body_once 0 "loop" (work 7 1) ⟨100, []⟩
      ⟨107, [Event.rdcycle 100, Event.effect 1]⟩ (by decide)).2.1, by decide⟩

/-- C6 as stated fails: with a body that works for 7 cycles and then leaves
through `break`, `TIMEIT` ends after the body: the trace holds the first
reading and the effect of the body, no second reading and no report. -/
theorem timeit_break_skips_report :
    TIMEIT 1 "t" (seq (work 7 1) breakStmt) ⟨100, []⟩ =
      some (Outcome.normal, ⟨107, [Event.rdcycle 100, Event.effect 1]⟩) ∧
    (∀ r, TIMEIT 1 "t" (seq (work 7 1) breakStmt) ⟨100, []⟩ = some r →
      reported r.2.trace = [] ∧ Event.rdcycle 107 ∉ r.2.trace) := by
  have h : TIMEIT 1 "t" (seq (work 7 1) breakStmt) ⟨100, []⟩ =
      some (Outcome.normal, ⟨107, [Event.rdcycle 100, Event.effect 1]⟩) := by decide
  refine ⟨h, ?_⟩
  intro r hr
  rw [h] at hr
  cases hr
  decide

/-- C6, amended: `TIMEIT` runs the body exactly once on every path, and closes
the timing window when the body completes normally: it then takes the second
reading and reports `cycle1 - cycle0`. When the body leaves early through
`break`, `continue`, `return` or `goto`, `TIMEIT` ends with the world the body
left: `break` and `continue` end the `do ... while (0)` normally, `return` and
`goto` leave it with their outcome, and there is neither a second reading nor
a report. -/
theorem timeit_window_closed_on_normal_exit (fuel : Nat) (msg : String) (body : Stmt)
    (w w2 : World) (o : Outcome) (hb : body (get_cycle w).2 = some (o, w2)) :
    (o = Outcome.normal →
      TIMEIT (fuel + 1) msg body w =
        some (Outcome.normal,
          ⟨w2.cycle, w2.trace ++ [Event.rdcycle (get_cycle w2).1,
            Event.printf msg (u64_sub (get_cycle w2).1 (get_cycle w).1)]⟩)) ∧
    (o ≠ Outcome.normal →
      TIMEIT (fuel + 1) msg body w = some (exitOutcome o, w2)) := by
  constructor
  · intro ho
    subst ho
    exact TIMEIT_normal fuel msg body w w2 hb
  · intro ho
    exact TIMEIT_early fuel msg body w w2 o hb ho

/-- Witness of C6: the body that leaves through `break`, and the body that
completes. -/
theorem timeit_window_closed_on_normal_exit_witness :
    TIMEIT 1 "t" (seq (work 7 1) breakStmt) ⟨100, []⟩ =
      some (exitOutcome Outcome.brk, ⟨107, [Event.rdcycle 100, Event.effect 1]⟩) ∧
    TIMEIT 1 "t" (work 7 1) ⟨100, []⟩ =
      some (Outcome.normal,
        ⟨107, [Event.rdcycle 100, Event.effect 1] ++ [Event.rdcycle 107,
          Event.printf "t" (u64_sub 107 100)]⟩) :=
  ⟨(timeit_window_closed_on_normal_exit 0 "t" (seq (work 7 1) breakStmt) ⟨100, []⟩
      ⟨107, [Event.rdcycle 100, Event.effect 1]⟩ Outcome.brk (by decide)).2 (by decide),
   (timeit_window_closed_on_normal_exit 0 "t" (work 7 1) ⟨100, []⟩
      ⟨107, [Event.rdcycle 100, Event.effect 1]⟩ Outcome.normal (by decide)).1 rfl⟩

end L2Ctl
